import Mathlib

/-!
Verification development for the Isolation competition agent
(src/isolation/competition_agent.py): a time-bounded iterative-deepening
alpha-beta searcher with a heuristic evaluator.

The embedding is shallow.  Board states and players are abstract types with
an explicit dictionary of collaborator operations (GameOps).  Float scores
are modelled by the linearly ordered type Score (minus infinity, finite
rationals, plus infinity), matching the only float operations the code
performs (comparisons, min, max, and exact small arithmetic).  The clock
callable is modelled as a stream of readings: the n-th call to time_left()
returns clock n, and the number of calls made so far is threaded through the
search.  The SearchTimeout exception becomes the error branch of Except.
The unbounded while-loop of get_move is modelled with explicit fuel: a
result of none means the loop was still running after that many iterations.
-/

/-- Heuristic score values: minus infinity, a finite value, or plus
infinity, mirroring the float values produced by custom_score and the
infinities used to initialise the search. -/
inductive Score where
  | negInf : Score
  | fin : ℚ → Score
  | posInf : Score
deriving DecidableEq

namespace Score

/-- Strict order on scores, matching the float comparison used by the agent. -/
def blt : Score → Score → Bool
  | negInf, negInf => false
  | negInf, fin _ => true
  | negInf, posInf => true
  | fin _, negInf => false
  | fin a, fin b => decide (a < b)
  | fin _, posInf => true
  | posInf, _ => false

/-- Non-strict order on scores (the float comparison a less-or-equal b). -/
def ble (a b : Score) : Bool := !(blt b a)

/-- Python max(a, b): returns the first argument on ties. -/
def smax (a b : Score) : Score := if blt a b then b else a

/-- Python min(a, b): returns the first argument on ties. -/
def smin (a b : Score) : Score := if blt b a then b else a

/-- Propositional form of the strict order. -/
def Lt (a b : Score) : Prop := blt a b = true

/-- Propositional form of the non-strict order. -/
def Le (a b : Score) : Prop := blt b a = false

theorem le_refl (a : Score) : Le a a := by
  cases a <;> simp [Le, blt]

theorem le_of_lt {a b : Score} (h : Lt a b) : Le a b := by
  cases a <;> cases b <;> simp_all [Lt, Le, blt, not_lt]
  exact h.le

theorem le_trans {a b c : Score} (h1 : Le a b) (h2 : Le b c) : Le a c := by
  cases a <;> cases b <;> cases c <;> simp_all [Le, blt, not_lt]
  exact h1.trans h2

theorem lt_of_le_of_lt {a b c : Score} (h1 : Le a b) (h2 : Lt b c) : Lt a c := by
  cases a <;> cases b <;> cases c <;> simp_all [Le, Lt, blt, not_lt]
  exact h1.trans_lt h2

theorem lt_of_lt_of_le {a b c : Score} (h1 : Lt a b) (h2 : Le b c) : Lt a c := by
  cases a <;> cases b <;> cases c <;> simp_all [Le, Lt, blt, not_lt]
  exact h1.trans_le h2

theorem le_antisymm {a b : Score} (h1 : Le a b) (h2 : Le b a) : a = b := by
  cases a <;> cases b <;> simp_all [Le, blt, not_lt]
  exact h1.antisymm h2

theorem lt_irrefl {a : Score} (h : Lt a a) : False := by
  rw [Lt, le_refl a] at h
  exact Bool.false_ne_true h

theorem le_posInf (a : Score) : Le a posInf := rfl

theorem negInf_le (a : Score) : Le negInf a := by
  cases a <;> rfl

theorem blt_posInf_left (a : Score) : blt posInf a = false := rfl

theorem eq_posInf_of_le {a : Score} (h : Le posInf a) : a = posInf := by
  cases a <;> simp_all [Le, blt]

theorem lt_posInf_of_lt {a b : Score} (h : Lt a b) : Lt a posInf := by
  cases a <;> cases b <;> simp_all [Lt, blt]

theorem smin_le_left (a b : Score) : Le (smin a b) a := by
  unfold smin
  split
  · exact le_of_lt (by assumption)
  · exact le_refl a

theorem smin_le_right (a b : Score) : Le (smin a b) b := by
  unfold smin
  split
  · exact le_refl b
  · rename_i h
    exact Bool.eq_false_iff.mpr h

theorem le_smin {c a b : Score} (h1 : Le c a) (h2 : Le c b) : Le c (smin a b) := by
  unfold smin
  split <;> assumption

theorem smin_comm (a b : Score) : smin a b = smin b a := by
  apply le_antisymm
  · exact le_smin (smin_le_right a b) (smin_le_left a b)
  · exact le_smin (smin_le_right b a) (smin_le_left b a)

theorem smin_assoc (a b c : Score) : smin (smin a b) c = smin a (smin b c) := by
  apply le_antisymm
  · refine le_smin ?_ (le_smin ?_ ?_)
    · exact le_trans (smin_le_left (smin a b) c) (smin_le_left a b)
    · exact le_trans (smin_le_left (smin a b) c) (smin_le_right a b)
    · exact smin_le_right (smin a b) c
  · refine le_smin (le_smin ?_ ?_) ?_
    · exact smin_le_left a (smin b c)
    · exact le_trans (smin_le_right a (smin b c)) (smin_le_left b c)
    · exact le_trans (smin_le_right a (smin b c)) (smin_le_right b c)

theorem smin_posInf_left (a : Score) : smin posInf a = a := by
  cases a <;> rfl

theorem lt_smin {a b c : Score} (h1 : Lt a b) (h2 : Lt a c) : Lt a (smin b c) := by
  unfold smin
  split <;> assumption

theorem le_smax_left (a b : Score) : Le a (smax a b) := by
  unfold smax
  split
  · exact le_of_lt (by assumption)
  · exact le_refl a

theorem le_smax_right (a b : Score) : Le b (smax a b) := by
  unfold smax
  split
  · exact le_refl b
  · rename_i h
    exact Bool.eq_false_iff.mpr h

theorem smax_le {a b c : Score} (h1 : Le a c) (h2 : Le b c) : Le (smax a b) c := by
  unfold smax
  split <;> assumption

theorem smax_comm (a b : Score) : smax a b = smax b a := by
  apply le_antisymm
  · exact smax_le (le_smax_right b a) (le_smax_left b a)
  · exact smax_le (le_smax_right a b) (le_smax_left a b)

theorem smax_assoc (a b c : Score) : smax (smax a b) c = smax a (smax b c) := by
  apply le_antisymm
  · refine smax_le (smax_le ?_ ?_) ?_
    · exact le_smax_left a (smax b c)
    · exact le_trans (le_smax_left b c) (le_smax_right a (smax b c))
    · exact le_trans (le_smax_right b c) (le_smax_right a (smax b c))
  · refine smax_le ?_ (smax_le ?_ ?_)
    · exact le_trans (le_smax_left a b) (le_smax_left (smax a b) c)
    · exact le_trans (le_smax_right a b) (le_smax_left (smax a b) c)
    · exact le_smax_right (smax a b) c

theorem smax_negInf_left (a : Score) : smax negInf a = a := by
  cases a <;> rfl

theorem smax_lt {a b c : Score} (h1 : Lt a c) (h2 : Lt b c) : Lt (smax a b) c := by
  unfold smax
  split <;> assumption

theorem ble_eq_true {a b : Score} : ble a b = true ↔ Le a b := by
  simp [ble, Le]

theorem ble_eq_false {a b : Score} : ble a b = false ↔ Lt b a := by
  simp [ble, Lt]

theorem foldl_smin_le_init (L : List Score) : ∀ a : Score, Le (L.foldl smin a) a := by
  induction L with
  | nil => exact fun a => le_refl a
  | cons x L ih =>
    intro a
    exact le_trans (ih (smin a x)) (smin_le_left a x)

theorem foldl_smin_eq (L : List Score) :
    ∀ a : Score, L.foldl smin a = smin a (L.foldl smin posInf) := by
  induction L with
  | nil =>
    intro a
    show a = smin a posInf
    cases a <;> rfl
  | cons x L ih =>
    intro a
    show (L.foldl smin (smin a x)) = smin a (L.foldl smin (smin posInf x))
    rw [ih (smin a x), ih (smin posInf x), smin_posInf_left, smin_assoc]

theorem foldl_smax_ge_init (L : List Score) : ∀ a : Score, Le a (L.foldl smax a) := by
  induction L with
  | nil => exact fun a => le_refl a
  | cons x L ih =>
    intro a
    exact le_trans (le_smax_left a x) (ih (smax a x))

theorem foldl_smax_eq (L : List Score) :
    ∀ a : Score, L.foldl smax a = smax a (L.foldl smax negInf) := by
  induction L with
  | nil =>
    intro a
    show a = smax a negInf
    cases a <;> rfl
  | cons x L ih =>
    intro a
    show (L.foldl smax (smax a x)) = smax a (L.foldl smax (smax negInf x))
    rw [ih (smax a x), ih (smax negInf x), smax_negInf_left, smax_assoc]

end Score

/-- Board coordinates: a pair of integers.  The pair (-1, -1) is the
no-move sentinel. -/
abbrev Move : Type := Int × Int

/-- The no-move sentinel (-1, -1). -/
def noMove : Move := ((-1 : Int), (-1 : Int))

/-- The cooperative timeout signal (class SearchTimeout(Exception)). -/
inductive SearchTimeout where
  | mk : SearchTimeout
deriving DecidableEq

/-- Collaborator contract of the external isolation.Board: the operations
the agent calls on the game state.  States have type σ, players type π. -/
structure GameOps (σ π : Type) where
  active_player : σ → π
  get_legal_moves : σ → π → List Move
  forecast_move : σ → Move → σ
  is_loser : σ → π → Bool
  is_winner : σ → π → Bool
  get_opponent : σ → π → π
  get_blank_spaces : σ → List Move
  get_player_location : σ → π → Move

/-- The CustomPlayer object: the evaluator stored in __init__ (self.score),
the clock stored by get_move (self.time_left, None until the first call),
and the timeout threshold (self.TIMER_THRESHOLD). -/
structure CustomPlayer (σ π : Type) where
  score : σ → π → Score
  time_left : Option (Nat → ℚ)
  TIMER_THRESHOLD : ℚ

variable {σ π δ : Type}

/-- custom_score(game, player): minus infinity on a loss, plus infinity on a
win, otherwise my_moves - 2*opponent_moves + (blank_slots/2 + 2*my_moves)/13. -/
def custom_score (G : GameOps σ π) (game : σ) (player : π) : Score :=
  if G.is_loser game player then Score.negInf
  else if G.is_winner game player then Score.posInf
  else
    let my_moves : ℚ := ((G.get_legal_moves game player).length : ℚ)
    let opponent_moves : ℚ :=
      ((G.get_legal_moves game (G.get_opponent game player)).length : ℚ)
    let blank_slots : ℚ := ((G.get_blank_spaces game).length : ℚ)
    Score.fin (my_moves - 2 * opponent_moves + (blank_slots / 2 + 2 * my_moves) / 13)

/-- CustomPlayer.__init__(self, data=None, timeout=1.): stores custom_score
as the evaluator, leaves time_left unset, and records the threshold.  The
data argument is not used. -/
def CustomPlayer.init (G : GameOps σ π) (_data : δ) (timeout : ℚ) : CustomPlayer σ π :=
  ⟨custom_score G, none, timeout⟩

/-- Everything a recursive search call reads: the board operations, the
evaluator (self.score), the agent itself as a board player (self passed to
score and get_player_location), the threshold (self.TIMER_THRESHOLD) and
the clock (self.time_left, as the stream of its successive readings). -/
structure Env (σ π : Type) where
  G : GameOps σ π
  score : σ → π → Score
  me : π
  threshold : ℚ
  clock : Nat → ℚ

/-- The type of a fixed-depth node evaluator: state, alpha, beta, and the
count of clock readings made so far, yielding either a timeout or a
(score, move) pair together with the updated reading count. -/
abbrev SearchFun (σ : Type) :=
  σ → Score → Score → Nat → Except SearchTimeout ((Score × Move) × Nat)

/-- The for-loop of _max_value over legal_moves: track value_of_game and
best_move, update on a strict improvement, return immediately when the
child score reaches beta, and raise alpha to max(alpha, new_score). -/
def max_fold (e : Env σ π) (game : σ) (child : SearchFun σ) :
    List Move → Score → Move → Score → Score → Nat →
    Except SearchTimeout ((Score × Move) × Nat)
  | [], value_of_game, best_move, _alpha, _beta, t =>
    Except.ok ((value_of_game, best_move), t)
  | move :: rest, value_of_game, best_move, alpha, beta, t =>
    match child (e.G.forecast_move game move) alpha beta t with
    | Except.error ex => Except.error ex
    | Except.ok ((new_score, _), t1) =>
      let value1 := if Score.blt value_of_game new_score then new_score else value_of_game
      let best1 := if Score.blt value_of_game new_score then move else best_move
      if Score.ble beta new_score then Except.ok ((value1, best1), t1)
      else max_fold e game child rest value1 best1 (Score.smax alpha new_score) beta t1

/-- The for-loop of _min_value over legal_moves: symmetric to max_fold with
min-updates, an alpha cutoff, and beta lowered to min(beta, new_score). -/
def min_fold (e : Env σ π) (game : σ) (child : SearchFun σ) :
    List Move → Score → Move → Score → Score → Nat →
    Except SearchTimeout ((Score × Move) × Nat)
  | [], value_of_game, best_move, _alpha, _beta, t =>
    Except.ok ((value_of_game, best_move), t)
  | move :: rest, value_of_game, best_move, alpha, beta, t =>
    match child (e.G.forecast_move game move) alpha beta t with
    | Except.error ex => Except.error ex
    | Except.ok ((new_score, _), t1) =>
      let value1 := if Score.blt new_score value_of_game then new_score else value_of_game
      let best1 := if Score.blt new_score value_of_game then move else best_move
      if Score.ble new_score alpha then Except.ok ((value1, best1), t1)
      else min_fold e game child rest value1 best1 alpha (Score.smin beta new_score) t1

/-- Shared depth-0 leaf of _max_value and _min_value: timer check, then
(self.score(game, self), game.get_player_location(self)). -/
def leaf_eval (e : Env σ π) (game : σ) (t : Nat) :
    Except SearchTimeout ((Score × Move) × Nat) :=
  if e.clock t < e.threshold then Except.error SearchTimeout.mk
  else Except.ok ((e.score game e.me, e.G.get_player_location game e.me), t + 1)

/-- Body of _max_value at positive depth, with the depth-(d-1) _min_value
passed in as child: timer check, then the no-legal-moves leaf, then the
move loop started at (float(-inf), (-1, -1)). -/
def max_body (e : Env σ π) (child : SearchFun σ) (game : σ)
    (alpha beta : Score) (t : Nat) : Except SearchTimeout ((Score × Move) × Nat) :=
  if e.clock t < e.threshold then Except.error SearchTimeout.mk
  else
    let legal_moves := e.G.get_legal_moves game (e.G.active_player game)
    if legal_moves = [] then Except.ok ((e.score game e.me, noMove), t + 1)
    else max_fold e game child legal_moves Score.negInf noMove alpha beta (t + 1)

/-- Body of _min_value at positive depth, with the depth-(d-1) _max_value
passed in as child, started at (float(inf), (-1, -1)). -/
def min_body (e : Env σ π) (child : SearchFun σ) (game : σ)
    (alpha beta : Score) (t : Nat) : Except SearchTimeout ((Score × Move) × Nat) :=
  if e.clock t < e.threshold then Except.error SearchTimeout.mk
  else
    let legal_moves := e.G.get_legal_moves game (e.G.active_player game)
    if legal_moves = [] then Except.ok ((e.score game e.me, noMove), t + 1)
    else min_fold e game child legal_moves Score.posInf noMove alpha beta (t + 1)

/-- The mutually recursive pair (_max_value, _min_value) at a given depth,
built by recursion on the depth so that each calls the other at depth - 1. -/
def searchPair (e : Env σ π) : Nat → SearchFun σ × SearchFun σ
  | 0 =>
    (fun game _alpha _beta t => leaf_eval e game t,
     fun game _alpha _beta t => leaf_eval e game t)
  | d + 1 =>
    (fun game alpha beta t => max_body e (searchPair e d).2 game alpha beta t,
     fun game alpha beta t => min_body e (searchPair e d).1 game alpha beta t)

/-- CustomPlayer._max_value(game, depth, alpha, beta). -/
def max_value (e : Env σ π) (game : σ) (depth : Nat) (alpha beta : Score) (t : Nat) :
    Except SearchTimeout ((Score × Move) × Nat) :=
  (searchPair e depth).1 game alpha beta t

/-- CustomPlayer._min_value(game, depth, alpha, beta). -/
def min_value (e : Env σ π) (game : σ) (depth : Nat) (alpha beta : Score) (t : Nat) :
    Except SearchTimeout ((Score × Move) × Nat) :=
  (searchPair e depth).2 game alpha beta t

/-- CustomPlayer.alphabeta(game, depth, alpha, beta): timer check, then the
move component of _max_value(game, depth, alpha, beta). -/
def alphabeta (e : Env σ π) (game : σ) (depth : Nat) (alpha beta : Score) (t : Nat) :
    Except SearchTimeout (Move × Nat) :=
  if e.clock t < e.threshold then Except.error SearchTimeout.mk
  else
    match max_value e game depth alpha beta (t + 1) with
    | Except.error ex => Except.error ex
    | Except.ok ((_, mv), t') => Except.ok (mv, t')

/-- The while True loop of get_move, with fuel bounding how many iterations
are modelled: each iteration runs alphabeta at the current depth with the
default full window, records its move on completion, and increments the
depth; a timeout ends the loop with the currently recorded move; none means
the loop was still running when the fuel ran out. -/
def get_move_loop (e : Env σ π) (game : σ) :
    Nat → Nat → Move → Nat → Option Move
  | 0, _depth, _chosen, _t => none
  | fuel + 1, depth, chosen, t =>
    match alphabeta e game depth Score.negInf Score.posInf t with
    | Except.error _ => some chosen
    | Except.ok (mv, t') => get_move_loop e game fuel (depth + 1) mv t'

/-- The environment get_move hands to the recursive search, from the board
operations, the agent object after time_left is stored, and the clock. -/
def envOf (G : GameOps σ π) (me : π) (self : CustomPlayer σ π) (clock : Nat → ℚ) :
    Env σ π :=
  ⟨G, self.score, me, self.TIMER_THRESHOLD, clock⟩

/-- CustomPlayer.get_move(game, time_left): store the clock, return the
sentinel when the active player has no legal moves, otherwise iterate
alphabeta from depth 1 until timeout, and replace a still-sentinel result
by random.choice(legal_moves), modelled by index r mod the list length.
Returns the chosen move (none when the modelled loop ran out of fuel while
still running) together with the updated agent object. -/
def get_move (G : GameOps σ π) (me : π) (self : CustomPlayer σ π) (game : σ)
    (time_left : Nat → ℚ) (fuel : Nat) (r : Nat) :
    Option Move × CustomPlayer σ π :=
  let self1 : CustomPlayer σ π := ⟨self.score, some time_left, self.TIMER_THRESHOLD⟩
  let legal_moves := G.get_legal_moves game (G.active_player game)
  if legal_moves = [] then (some noMove, self1)
  else
    match get_move_loop (envOf G me self1 time_left) game fuel 1 noMove 0 with
    | none => (none, self1)
    | some chosen =>
      if chosen = noMove then
        (some (legal_moves.getD (r % legal_moves.length) noMove), self1)
      else (some chosen, self1)

/-- Modelled from the spec: the move loop of an unpruned full-window
minimax MAX node, same strict-improvement update and first-best tie-break
as the agent's loop but with no window and no cutoff. -/
def mm_max_fold (e : Env σ π) (game : σ) (child : σ → Score × Move) :
    List Move → Score → Move → Score × Move
  | [], value_of_game, best_move => (value_of_game, best_move)
  | move :: rest, value_of_game, best_move =>
    let new_score := (child (e.G.forecast_move game move)).1
    mm_max_fold e game child rest
      (if Score.blt value_of_game new_score then new_score else value_of_game)
      (if Score.blt value_of_game new_score then move else best_move)

/-- Modelled from the spec: the move loop of an unpruned minimax MIN node. -/
def mm_min_fold (e : Env σ π) (game : σ) (child : σ → Score × Move) :
    List Move → Score → Move → Score × Move
  | [], value_of_game, best_move => (value_of_game, best_move)
  | move :: rest, value_of_game, best_move =>
    let new_score := (child (e.G.forecast_move game move)).1
    mm_min_fold e game child rest
      (if Score.blt new_score value_of_game then new_score else value_of_game)
      (if Score.blt new_score value_of_game then move else best_move)

/-- Modelled from the spec: unpruned fixed-depth minimax MAX node body,
with the same leaves as the agent's _max_value. -/
def mm_max_body (e : Env σ π) (child : σ → Score × Move) (game : σ) : Score × Move :=
  let legal_moves := e.G.get_legal_moves game (e.G.active_player game)
  if legal_moves = [] then (e.score game e.me, noMove)
  else mm_max_fold e game child legal_moves Score.negInf noMove

/-- Modelled from the spec: unpruned fixed-depth minimax MIN node body. -/
def mm_min_body (e : Env σ π) (child : σ → Score × Move) (game : σ) : Score × Move :=
  let legal_moves := e.G.get_legal_moves game (e.G.active_player game)
  if legal_moves = [] then (e.score game e.me, noMove)
  else mm_min_fold e game child legal_moves Score.posInf noMove

/-- Modelled from the spec: the unpruned minimax (MAX, MIN) node pair at a
given depth, evaluating leaves from the fixed agent perspective. -/
def mmPair (e : Env σ π) : Nat → (σ → Score × Move) × (σ → Score × Move)
  | 0 =>
    (fun game => (e.score game e.me, e.G.get_player_location game e.me),
     fun game => (e.score game e.me, e.G.get_player_location game e.me))
  | d + 1 =>
    (fun game => mm_max_body e (mmPair e d).2 game,
     fun game => mm_min_body e (mmPair e d).1 game)

/-- Modelled from the spec: unpruned full-window minimax value and move of
a MAX node at the given depth. -/
def mm_max (e : Env σ π) (game : σ) (depth : Nat) : Score × Move :=
  (mmPair e depth).1 game

/-- Modelled from the spec: unpruned minimax value and move of a MIN node. -/
def mm_min (e : Env σ π) (game : σ) (depth : Nat) : Score × Move :=
  (mmPair e depth).2 game

/-- Modelled from the spec: the move an unpruned full-window fixed-depth
minimax search returns, ties broken by the first move with the best score. -/
def minimax_move (e : Env σ π) (game : σ) (depth : Nat) : Move :=
  (mm_max e game depth).2

namespace Score

theorem not_lt_of_le {a b : Score} (h2 : Le b a) (h1 : Lt a b) : False := by
  rw [Lt] at h1
  rw [Le] at h2
  rw [h2] at h1
  exact Bool.false_ne_true h1

theorem smin_eq_right {a b : Score} (h : Lt b a) : smin a b = b := by
  unfold smin
  have hx : blt b a = true := h
  rw [hx]
  simp

theorem smin_eq_left {a b : Score} (h : Le a b) : smin a b = a := by
  unfold smin
  have hx : blt b a = false := h
  rw [hx]
  simp

theorem smax_eq_right {a b : Score} (h : Lt a b) : smax a b = b := by
  unfold smax
  have hx : blt a b = true := h
  rw [hx]
  simp

theorem smax_eq_left {a b : Score} (h : Le b a) : smax a b = a := by
  unfold smax
  have hx : blt a b = false := h
  rw [hx]
  simp

theorem foldl_smin_swap (L : List Score) (a x : Score) :
    L.foldl smin (smin a x) = smin (smin a (L.foldl smin posInf)) x := by
  rw [foldl_smin_eq, smin_assoc a x, smin_comm x, ← smin_assoc a]

theorem foldl_smax_swap (L : List Score) (a x : Score) :
    L.foldl smax (smax a x) = smax (smax a (L.foldl smax negInf)) x := by
  rw [foldl_smax_eq, smax_assoc a x, smax_comm x, ← smax_assoc a]

end Score

theorem max_value_zero (e : Env σ π) (game : σ) (alpha beta : Score) (t : Nat) :
    max_value e game 0 alpha beta t = leaf_eval e game t := rfl

theorem min_value_zero (e : Env σ π) (game : σ) (alpha beta : Score) (t : Nat) :
    min_value e game 0 alpha beta t = leaf_eval e game t := rfl

theorem max_value_succ (e : Env σ π) (game : σ) (d : Nat) (alpha beta : Score) (t : Nat) :
    max_value e game (d + 1) alpha beta t =
      max_body e (fun g a b t0 => min_value e g d a b t0) game alpha beta t := rfl

theorem min_value_succ (e : Env σ π) (game : σ) (d : Nat) (alpha beta : Score) (t : Nat) :
    min_value e game (d + 1) alpha beta t =
      min_body e (fun g a b t0 => max_value e g d a b t0) game alpha beta t := rfl

theorem mm_max_zero (e : Env σ π) (game : σ) :
    mm_max e game 0 = (e.score game e.me, e.G.get_player_location game e.me) := rfl

theorem mm_min_zero (e : Env σ π) (game : σ) :
    mm_min e game 0 = (e.score game e.me, e.G.get_player_location game e.me) := rfl

theorem mm_max_succ (e : Env σ π) (game : σ) (d : Nat) :
    mm_max e game (d + 1) = mm_max_body e (fun g => mm_min e g d) game := rfl

theorem mm_min_succ (e : Env σ π) (game : σ) (d : Nat) :
    mm_min e game (d + 1) = mm_min_body e (fun g => mm_max e g d) game := rfl

theorem max_fold_cons_error (e : Env σ π) (game : σ) (child : SearchFun σ)
    (mv : Move) (rest : List Move) (value : Score) (best : Move)
    (alpha beta : Score) (t : Nat) (ex : SearchTimeout)
    (hc : child (e.G.forecast_move game mv) alpha beta t = Except.error ex) :
    max_fold e game child (mv :: rest) value best alpha beta t = Except.error ex := by
  simp only [max_fold, hc]

theorem max_fold_cons_ok (e : Env σ π) (game : σ) (child : SearchFun σ)
    (mv : Move) (rest : List Move) (value : Score) (best : Move)
    (alpha beta : Score) (t : Nat) (sc : Score) (mc : Move) (t1 : Nat)
    (hc : child (e.G.forecast_move game mv) alpha beta t = Except.ok ((sc, mc), t1)) :
    max_fold e game child (mv :: rest) value best alpha beta t =
      (if Score.ble beta sc then
        Except.ok ((Score.smax value sc, if Score.blt value sc then mv else best), t1)
      else
        max_fold e game child rest (Score.smax value sc)
          (if Score.blt value sc then mv else best) (Score.smax alpha sc) beta t1) := by
  simp only [max_fold, hc]
  rfl

theorem min_fold_cons_error (e : Env σ π) (game : σ) (child : SearchFun σ)
    (mv : Move) (rest : List Move) (value : Score) (best : Move)
    (alpha beta : Score) (t : Nat) (ex : SearchTimeout)
    (hc : child (e.G.forecast_move game mv) alpha beta t = Except.error ex) :
    min_fold e game child (mv :: rest) value best alpha beta t = Except.error ex := by
  simp only [min_fold, hc]

theorem min_fold_cons_ok (e : Env σ π) (game : σ) (child : SearchFun σ)
    (mv : Move) (rest : List Move) (value : Score) (best : Move)
    (alpha beta : Score) (t : Nat) (sc : Score) (mc : Move) (t1 : Nat)
    (hc : child (e.G.forecast_move game mv) alpha beta t = Except.ok ((sc, mc), t1)) :
    min_fold e game child (mv :: rest) value best alpha beta t =
      (if Score.ble sc alpha then
        Except.ok ((Score.smin value sc, if Score.blt sc value then mv else best), t1)
      else
        min_fold e game child rest (Score.smin value sc)
          (if Score.blt sc value then mv else best) alpha (Score.smin beta sc) t1) := by
  simp only [min_fold, hc]
  rfl

theorem mm_max_fold_val (e : Env σ π) (game : σ) (child : σ → Score × Move) :
    ∀ (L : List Move) (value : Score) (best : Move),
      (mm_max_fold e game child L value best).1 =
        (L.map (fun mv => (child (e.G.forecast_move game mv)).1)).foldl Score.smax value := by
  intro L
  induction L with
  | nil => intro value best; rfl
  | cons mv rest ih =>
    intro value best
    simp only [mm_max_fold, List.map_cons, List.foldl_cons]
    exact ih _ _

theorem mm_min_fold_val (e : Env σ π) (game : σ) (child : σ → Score × Move) :
    ∀ (L : List Move) (value : Score) (best : Move),
      (mm_min_fold e game child L value best).1 =
        (L.map (fun mv => (child (e.G.forecast_move game mv)).1)).foldl Score.smin value := by
  intro L
  induction L with
  | nil => intro value best; rfl
  | cons mv rest ih =>
    intro value best
    simp only [mm_min_fold, List.map_cons, List.foldl_cons]
    exact ih _ _

theorem mm_max_fold_top (e : Env σ π) (game : σ) (child : σ → Score × Move) :
    ∀ (L : List Move) (best : Move),
      mm_max_fold e game child L Score.posInf best = (Score.posInf, best) := by
  intro L
  induction L with
  | nil => intro best; rfl
  | cons mv rest ih =>
    intro best
    simp only [mm_max_fold, Score.blt_posInf_left, Bool.false_eq_true, if_false]
    exact ih best

/-- Knuth-Moore style fail-soft bounds: the value a node reports is an upper
bound on the true minimax value when it fails low, exact inside the window,
and a lower bound when it fails high. -/
def KMB (v s alpha beta : Score) : Prop :=
  (Score.Le s alpha → Score.Le v s) ∧
  (Score.Lt alpha s → Score.Lt s beta → v = s) ∧
  (Score.Le beta s → Score.Le s v)

theorem KMB_refl (s alpha beta : Score) : KMB s s alpha beta :=
  ⟨fun _ => Score.le_refl s, fun _ _ => rfl, fun _ => Score.le_refl s⟩

theorem min_fold_le (e : Env σ π) (game : σ) (child : SearchFun σ) :
    ∀ (L : List Move) (value : Score) (best : Move) (alpha beta : Score) (t : Nat)
      (s : Score) (m : Move) (t' : Nat),
      min_fold e game child L value best alpha beta t = Except.ok ((s, m), t') →
      Score.Le s value := by
  intro L
  induction L with
  | nil =>
    intro value best alpha beta t s m t' h
    simp only [min_fold, Except.ok.injEq, Prod.mk.injEq] at h
    obtain ⟨⟨hs, hm⟩, ht⟩ := h
    subst hs
    exact Score.le_refl value
  | cons mv rest ih =>
    intro value best alpha beta t s m t' h
    cases hc : child (e.G.forecast_move game mv) alpha beta t with
    | error ex =>
      rw [min_fold_cons_error e game child mv rest value best alpha beta t ex hc] at h
      exact Except.noConfusion h
    | ok res =>
      obtain ⟨⟨sc, mc⟩, t1⟩ := res
      rw [min_fold_cons_ok e game child mv rest value best alpha beta t sc mc t1 hc] at h
      by_cases hcut : Score.ble sc alpha = true
      · rw [if_pos hcut] at h
        simp only [Except.ok.injEq, Prod.mk.injEq] at h
        obtain ⟨⟨hs, hm⟩, ht⟩ := h
        subst hs
        exact Score.smin_le_left value sc
      · rw [if_neg hcut] at h
        exact Score.le_trans (ih _ _ _ _ _ _ _ _ h) (Score.smin_le_left value sc)

theorem max_fold_ge (e : Env σ π) (game : σ) (child : SearchFun σ) :
    ∀ (L : List Move) (value : Score) (best : Move) (alpha beta : Score) (t : Nat)
      (s : Score) (m : Move) (t' : Nat),
      max_fold e game child L value best alpha beta t = Except.ok ((s, m), t') →
      Score.Le value s := by
  intro L
  induction L with
  | nil =>
    intro value best alpha beta t s m t' h
    simp only [max_fold, Except.ok.injEq, Prod.mk.injEq] at h
    obtain ⟨⟨hs, hm⟩, ht⟩ := h
    subst hs
    exact Score.le_refl value
  | cons mv rest ih =>
    intro value best alpha beta t s m t' h
    cases hc : child (e.G.forecast_move game mv) alpha beta t with
    | error ex =>
      rw [max_fold_cons_error e game child mv rest value best alpha beta t ex hc] at h
      exact Except.noConfusion h
    | ok res =>
      obtain ⟨⟨sc, mc⟩, t1⟩ := res
      rw [max_fold_cons_ok e game child mv rest value best alpha beta t sc mc t1 hc] at h
      by_cases hcut : Score.ble beta sc = true
      · rw [if_pos hcut] at h
        simp only [Except.ok.injEq, Prod.mk.injEq] at h
        obtain ⟨⟨hs, hm⟩, ht⟩ := h
        subst hs
        exact Score.le_smax_left value sc
      · rw [if_neg hcut] at h
        exact Score.le_trans (Score.le_smax_left value sc) (ih _ _ _ _ _ _ _ _ h)

theorem min_fold_bounds (e : Env σ π) (game : σ) (child : SearchFun σ) (spec : σ → Score)
    (hchild : ∀ (g : σ) (alpha beta : Score) (t : Nat) (s : Score) (m : Move) (t' : Nat),
      child g alpha beta t = Except.ok ((s, m), t') → Score.Lt alpha beta →
      KMB (spec g) s alpha beta) :
    ∀ (L : List Move) (value : Score) (best : Move) (alpha beta : Score) (t : Nat)
      (s : Score) (m : Move) (t' : Nat),
      min_fold e game child L value best alpha beta t = Except.ok ((s, m), t') →
      Score.Lt alpha beta → Score.Lt alpha value → Score.Le beta value →
      KMB ((L.map (fun mv => spec (e.G.forecast_move game mv))).foldl Score.smin value)
        s alpha beta := by
  intro L
  induction L with
  | nil =>
    intro value best alpha beta t s m t' h hab hav hbv
    simp only [min_fold, Except.ok.injEq, Prod.mk.injEq] at h
    obtain ⟨⟨hs, hm⟩, ht⟩ := h
    subst hs
    simpa using KMB_refl value alpha beta
  | cons mv rest ih =>
    intro value best alpha beta t s m t' h hab hav hbv
    cases hc : child (e.G.forecast_move game mv) alpha beta t with
    | error ex =>
      rw [min_fold_cons_error e game child mv rest value best alpha beta t ex hc] at h
      exact Except.noConfusion h
    | ok res =>
      obtain ⟨⟨sc, mc⟩, t1⟩ := res
      rw [min_fold_cons_ok e game child mv rest value best alpha beta t sc mc t1 hc] at h
      obtain ⟨hcA, hcB, hcC⟩ := hchild _ _ _ _ _ _ _ hc hab
      simp only [List.map_cons, List.foldl_cons]
      by_cases hcut : Score.ble sc alpha = true
      · -- alpha cutoff: Le sc alpha, the loop returns at once with value sc
        have hsca : Score.Le sc alpha := Score.ble_eq_true.mp hcut
        rw [if_pos hcut] at h
        simp only [Except.ok.injEq, Prod.mk.injEq] at h
        obtain ⟨⟨hs, hm⟩, ht⟩ := h
        have hscv : Score.Lt sc value := Score.lt_of_le_of_lt hsca hav
        have hv1 : Score.smin value sc = sc := Score.smin_eq_right hscv
        have hs' : s = sc := by rw [← hs, hv1]
        subst hs'
        refine ⟨?_, ?_, ?_⟩
        · intro _
          refine Score.le_trans (Score.le_trans (Score.foldl_smin_le_init _ _)
            (Score.smin_le_right value _)) (hcA hsca)
        · intro hlt _
          exact (Score.not_lt_of_le hsca hlt).elim
        · intro hbs
          exact (Score.not_lt_of_le hbs (Score.lt_of_le_of_lt hsca hab)).elim
      · -- no cutoff: alpha < sc, loop continues with min-updated value and beta
        have hasc : Score.Lt alpha sc := Score.ble_eq_false.mp (Bool.eq_false_iff.mpr hcut)
        rw [if_neg hcut] at h
        have hav1 : Score.Lt alpha (Score.smin value sc) := Score.lt_smin hav hasc
        have hab1 : Score.Lt alpha (Score.smin beta sc) := Score.lt_smin hab hasc
        have hbv1 : Score.Le (Score.smin beta sc) (Score.smin value sc) := by
          by_cases hsv : Score.blt sc value = true
          · rw [Score.smin_eq_right hsv]
            exact Score.smin_le_right beta sc
          · rw [Score.smin_eq_left (Bool.eq_false_iff.mpr hsv)]
            exact Score.le_trans (Score.smin_le_left beta sc) hbv
        have ihr := ih (Score.smin value sc) (if Score.blt sc value then mv else best)
          alpha (Score.smin beta sc) t1 s m t' h hab1 hav1 hbv1
        rw [Score.foldl_smin_swap] at ihr
        rw [Score.foldl_smin_swap]
        generalize hW : Score.smin value
          ((rest.map (fun mv2 => spec (e.G.forecast_move game mv2))).foldl
            Score.smin Score.posInf) = W at ihr ⊢
        by_cases hsb : Score.blt sc beta = true
        · -- sub-case A: sc inside the window, so the child value is exact
          have hvceq : spec (e.G.forecast_move game mv) = sc := hcB hasc hsb
          rw [hvceq]
          have hb' : Score.smin beta sc = sc := Score.smin_eq_right hsb
          rw [hb'] at ihr
          obtain ⟨ihA, ihB, ihC⟩ := ihr
          refine ⟨ihA, ?_, ?_⟩
          · intro has hsbeta
            by_cases hss : Score.blt s sc = true
            · exact ihB has hss
            · have hscs : Score.Le sc s := Bool.eq_false_iff.mpr hss
              have h1 : Score.Le s (Score.smin W sc) := ihC hscs
              have h3 : Score.Le (Score.smin W sc) s :=
                Score.le_trans (Score.smin_le_right W sc) hscs
              exact Score.le_antisymm h3 h1
          · intro hbs
            have h1 : Score.Le s (Score.smin value sc) :=
              min_fold_le e game child rest _ _ _ _ _ _ _ _ h
            have h2 : Score.Le s sc := Score.le_trans h1 (Score.smin_le_right value sc)
            exact ((Score.not_lt_of_le hbs (Score.lt_of_le_of_lt h2 hsb)).elim)
        · -- sub-case B: the child failed high against beta
          have hbsc : Score.Le beta sc := Bool.eq_false_iff.mpr hsb
          have hscvc : Score.Le sc (spec (e.G.forecast_move game mv)) := hcC hbsc
          have hb' : Score.smin beta sc = beta := Score.smin_eq_left hbsc
          rw [hb'] at ihr
          obtain ⟨ihA, ihB, ihC⟩ := ihr
          refine ⟨?_, ?_, ?_⟩
          · intro hsa
            have h1 := ihA hsa
            by_cases hscW : Score.blt sc W = true
            · rw [Score.smin_eq_right hscW] at h1
              exact ((Score.not_lt_of_le (Score.le_trans h1 hsa) hasc).elim)
            · rw [Score.smin_eq_left (Bool.eq_false_iff.mpr hscW)] at h1
              exact Score.le_trans (Score.smin_le_left W _) h1
          · intro has hsb2
            have heq := ihB has hsb2
            by_cases hscW : Score.blt sc W = true
            · rw [Score.smin_eq_right hscW] at heq
              have hlt : Score.Lt s sc := Score.lt_of_lt_of_le hsb2 hbsc
              exact ((Score.lt_irrefl (heq ▸ hlt)).elim)
            · rw [Score.smin_eq_left (Bool.eq_false_iff.mpr hscW)] at heq
              have hsvc : Score.Lt s (spec (e.G.forecast_move game mv)) :=
                Score.lt_of_lt_of_le hsb2 (Score.le_trans hbsc hscvc)
              have hnb : Score.blt (spec (e.G.forecast_move game mv)) s = false :=
                Score.le_of_lt hsvc
              have hWs : Score.Le W (spec (e.G.forecast_move game mv)) := by
                rw [heq]
                exact hnb
              rw [Score.smin_eq_left hWs]
              exact heq
          · intro hbs
            have h1 := ihC hbs
            have hsW : Score.Le s W := Score.le_trans h1 (Score.smin_le_left W sc)
            have hssc : Score.Le s sc := Score.le_trans h1 (Score.smin_le_right W sc)
            exact Score.le_smin hsW (Score.le_trans hssc hscvc)

theorem max_fold_bounds (e : Env σ π) (game : σ) (child : SearchFun σ) (spec : σ → Score)
    (hchild : ∀ (g : σ) (alpha beta : Score) (t : Nat) (s : Score) (m : Move) (t' : Nat),
      child g alpha beta t = Except.ok ((s, m), t') → Score.Lt alpha beta →
      KMB (spec g) s alpha beta) :
    ∀ (L : List Move) (value : Score) (best : Move) (alpha beta : Score) (t : Nat)
      (s : Score) (m : Move) (t' : Nat),
      max_fold e game child L value best alpha beta t = Except.ok ((s, m), t') →
      Score.Lt alpha beta → Score.Le value alpha → Score.Lt value beta →
      KMB ((L.map (fun mv => spec (e.G.forecast_move game mv))).foldl Score.smax value)
        s alpha beta := by
  intro L
  induction L with
  | nil =>
    intro value best alpha beta t s m t' h hab hva hvb
    simp only [max_fold, Except.ok.injEq, Prod.mk.injEq] at h
    obtain ⟨⟨hs, hm⟩, ht⟩ := h
    subst hs
    simpa using KMB_refl value alpha beta
  | cons mv rest ih =>
    intro value best alpha beta t s m t' h hab hva hvb
    cases hc : child (e.G.forecast_move game mv) alpha beta t with
    | error ex =>
      rw [max_fold_cons_error e game child mv rest value best alpha beta t ex hc] at h
      exact Except.noConfusion h
    | ok res =>
      obtain ⟨⟨sc, mc⟩, t1⟩ := res
      rw [max_fold_cons_ok e game child mv rest value best alpha beta t sc mc t1 hc] at h
      obtain ⟨hcA, hcB, hcC⟩ := hchild _ _ _ _ _ _ _ hc hab
      simp only [List.map_cons, List.foldl_cons]
      by_cases hcut : Score.ble beta sc = true
      · -- beta cutoff: Le beta sc, the loop returns at once with value sc
        have hbsc : Score.Le beta sc := Score.ble_eq_true.mp hcut
        rw [if_pos hcut] at h
        simp only [Except.ok.injEq, Prod.mk.injEq] at h
        obtain ⟨⟨hs, hm⟩, ht⟩ := h
        have hup : Score.Lt value sc := Score.lt_of_lt_of_le hvb hbsc
        have hs' : s = sc := by rw [← hs, Score.smax_eq_right hup]
        subst hs'
        refine ⟨?_, ?_, ?_⟩
        · intro hsa
          exact ((Score.not_lt_of_le (Score.le_trans hbsc hsa) hab).elim)
        · intro _ hsb
          exact ((Score.not_lt_of_le hbsc hsb).elim)
        · intro _
          refine Score.le_trans (hcC hbsc) (Score.le_trans
            (Score.le_smax_right value _) (Score.foldl_smax_ge_init _ _))
      · -- no cutoff: sc < beta, loop continues with max-updated value and alpha
        have hscb : Score.Lt sc beta := Score.ble_eq_false.mp (Bool.eq_false_iff.mpr hcut)
        rw [if_neg hcut] at h
        have hvb1 : Score.Lt (Score.smax value sc) beta := Score.smax_lt hvb hscb
        have hab1 : Score.Lt (Score.smax alpha sc) beta := Score.smax_lt hab hscb
        have hva1 : Score.Le (Score.smax value sc) (Score.smax alpha sc) := by
          by_cases hup : Score.blt value sc = true
          · rw [Score.smax_eq_right hup]
            exact Score.le_smax_right alpha sc
          · rw [Score.smax_eq_left (Bool.eq_false_iff.mpr hup)]
            exact Score.le_trans hva (Score.le_smax_left alpha sc)
        have ihr := ih (Score.smax value sc) (if Score.blt value sc then mv else best)
          (Score.smax alpha sc) beta t1 s m t' h hab1 hva1 hvb1
        rw [Score.foldl_smax_swap] at ihr
        rw [Score.foldl_smax_swap]
        generalize hW : Score.smax value
          ((rest.map (fun mv2 => spec (e.G.forecast_move game mv2))).foldl
            Score.smax Score.negInf) = W at ihr ⊢
        by_cases hax : Score.blt alpha sc = true
        · -- sub-case A: sc inside the window, so the child value is exact
          have hvceq : spec (e.G.forecast_move game mv) = sc := hcB hax hscb
          rw [hvceq]
          have ha' : Score.smax alpha sc = sc := Score.smax_eq_right hax
          rw [ha'] at ihr
          obtain ⟨ihA, ihB, ihC⟩ := ihr
          refine ⟨?_, ?_, ihC⟩
          · intro hsa
            have h1 : Score.Le (Score.smax value sc) s :=
              max_fold_ge e game child rest _ _ _ _ _ _ _ _ h
            have h2 : Score.Le sc s := Score.le_trans (Score.le_smax_right value sc) h1
            exact ((Score.not_lt_of_le (Score.le_trans h2 hsa) hax).elim)
          · intro has hsb
            by_cases hss : Score.blt sc s = true
            · exact ihB hss hsb
            · have hscs : Score.Le s sc := Bool.eq_false_iff.mpr hss
              have h1 : Score.Le (Score.smax W sc) s := ihA hscs
              have h2 : Score.Le s (Score.smax W sc) :=
                Score.le_trans hscs (Score.le_smax_right W sc)
              exact Score.le_antisymm h1 h2
        · -- sub-case B: the child failed low against alpha
          have hcsa : Score.Le sc alpha := Bool.eq_false_iff.mpr hax
          have hvcle : Score.Le (spec (e.G.forecast_move game mv)) sc := hcA hcsa
          have ha' : Score.smax alpha sc = alpha := Score.smax_eq_left hcsa
          rw [ha'] at ihr
          obtain ⟨ihA, ihB, ihC⟩ := ihr
          refine ⟨?_, ?_, ?_⟩
          · intro hsa
            have h1 := ihA hsa
            have hWs : Score.Le W s := Score.le_trans (Score.le_smax_left W sc) h1
            have hscs : Score.Le sc s := Score.le_trans (Score.le_smax_right W sc) h1
            exact Score.smax_le hWs (Score.le_trans hvcle hscs)
          · intro has hsb
            have heq := ihB has hsb
            by_cases hWsc : Score.blt W sc = true
            · rw [Score.smax_eq_right hWsc] at heq
              exact ((Score.not_lt_of_le (heq ▸ hcsa) has).elim)
            · rw [Score.smax_eq_left (Bool.eq_false_iff.mpr hWsc)] at heq
              have hvcW : Score.Le (spec (e.G.forecast_move game mv)) W :=
                Score.le_trans hvcle (Bool.eq_false_iff.mpr hWsc)
              rw [Score.smax_eq_left hvcW]
              exact heq
          · intro hbs
            have h1 := ihC hbs
            by_cases hWsc : Score.blt W sc = true
            · rw [Score.smax_eq_right hWsc] at h1
              have hlt : Score.Lt sc s :=
                Score.lt_of_le_of_lt hcsa (Score.lt_of_lt_of_le hab hbs)
              exact ((Score.not_lt_of_le h1 hlt).elim)
            · rw [Score.smax_eq_left (Bool.eq_false_iff.mpr hWsc)] at h1
              exact Score.le_trans h1 (Score.le_smax_left W _)

/-- Fail-soft bounds for _max_value against the unpruned minimax value. -/
def MaxB (e : Env σ π) (d : Nat) : Prop :=
  ∀ (game : σ) (alpha beta : Score) (t : Nat) (s : Score) (m : Move) (t' : Nat),
    max_value e game d alpha beta t = Except.ok ((s, m), t') →
    Score.Lt alpha beta → KMB (mm_max e game d).1 s alpha beta

/-- Fail-soft bounds for _min_value against the unpruned minimax value. -/
def MinB (e : Env σ π) (d : Nat) : Prop :=
  ∀ (game : σ) (alpha beta : Score) (t : Nat) (s : Score) (m : Move) (t' : Nat),
    min_value e game d alpha beta t = Except.ok ((s, m), t') →
    Score.Lt alpha beta → KMB (mm_min e game d).1 s alpha beta

theorem bounds_all (e : Env σ π) : ∀ d : Nat, MaxB e d ∧ MinB e d := by
  intro d
  induction d with
  | zero =>
    constructor
    · intro game alpha beta t s m t' h _hab
      rw [max_value_zero] at h
      unfold leaf_eval at h
      split at h
      · exact Except.noConfusion h
      · simp only [Except.ok.injEq, Prod.mk.injEq] at h
        obtain ⟨⟨hs, hm⟩, ht⟩ := h
        subst hs
        exact KMB_refl (e.score game e.me) alpha beta
    · intro game alpha beta t s m t' h _hab
      rw [min_value_zero] at h
      unfold leaf_eval at h
      split at h
      · exact Except.noConfusion h
      · simp only [Except.ok.injEq, Prod.mk.injEq] at h
        obtain ⟨⟨hs, hm⟩, ht⟩ := h
        subst hs
        exact KMB_refl (e.score game e.me) alpha beta
  | succ d ihd =>
    obtain ⟨ihMax, ihMin⟩ := ihd
    constructor
    · intro game alpha beta t s m t' h hab
      rw [max_value_succ] at h
      simp only [max_body] at h
      split at h
      · exact Except.noConfusion h
      · split at h
        case isTrue hleg =>
          simp only [Except.ok.injEq, Prod.mk.injEq] at h
          obtain ⟨⟨hs, hm⟩, ht⟩ := h
          subst hs
          have hmm : (mm_max e game (d + 1)).1 = e.score game e.me := by
            rw [mm_max_succ]
            simp only [mm_max_body]
            rw [if_pos hleg]
          rw [hmm]
          exact KMB_refl (e.score game e.me) alpha beta
        case isFalse hleg =>
          have hres := max_fold_bounds e game (fun g a b t0 => min_value e g d a b t0)
            (fun g => (mm_min e g d).1)
            (fun g a b t0 s0 m0 t0' hh habb => ihMin g a b t0 s0 m0 t0' hh habb)
            (e.G.get_legal_moves game (e.G.active_player game)) Score.negInf noMove
            alpha beta (t + 1) s m t' h hab (Score.negInf_le alpha)
            (Score.lt_of_le_of_lt (Score.negInf_le alpha) hab)
          have hmm : (mm_max e game (d + 1)).1 =
              ((e.G.get_legal_moves game (e.G.active_player game)).map
                (fun mv => (mm_min e (e.G.forecast_move game mv) d).1)).foldl
                Score.smax Score.negInf := by
            rw [mm_max_succ]
            simp only [mm_max_body]
            rw [if_neg hleg]
            exact mm_max_fold_val e game (fun g => mm_min e g d) _ _ _
          rw [hmm]
          exact hres
    · intro game alpha beta t s m t' h hab
      rw [min_value_succ] at h
      simp only [min_body] at h
      split at h
      · exact Except.noConfusion h
      · split at h
        case isTrue hleg =>
          simp only [Except.ok.injEq, Prod.mk.injEq] at h
          obtain ⟨⟨hs, hm⟩, ht⟩ := h
          subst hs
          have hmm : (mm_min e game (d + 1)).1 = e.score game e.me := by
            rw [mm_min_succ]
            simp only [mm_min_body]
            rw [if_pos hleg]
          rw [hmm]
          exact KMB_refl (e.score game e.me) alpha beta
        case isFalse hleg =>
          have hres := min_fold_bounds e game (fun g a b t0 => max_value e g d a b t0)
            (fun g => (mm_max e g d).1)
            (fun g a b t0 s0 m0 t0' hh habb => ihMax g a b t0 s0 m0 t0' hh habb)
            (e.G.get_legal_moves game (e.G.active_player game)) Score.posInf noMove
            alpha beta (t + 1) s m t' h hab
            (Score.lt_of_lt_of_le hab (Score.le_posInf beta)) (Score.le_posInf beta)
          have hmm : (mm_min e game (d + 1)).1 =
              ((e.G.get_legal_moves game (e.G.active_player game)).map
                (fun mv => (mm_max e (e.G.forecast_move game mv) d).1)).foldl
                Score.smin Score.posInf := by
            rw [mm_min_succ]
            simp only [mm_min_body]
            rw [if_neg hleg]
            exact mm_min_fold_val e game (fun g => mm_max e g d) _ _ _
          rw [hmm]
          exact hres

theorem max_fold_root (e : Env σ π) (game : σ) (child : SearchFun σ)
    (spec : σ → Score × Move)
    (hchild : ∀ (g : σ) (alpha beta : Score) (t : Nat) (s : Score) (m : Move) (t' : Nat),
      child g alpha beta t = Except.ok ((s, m), t') → Score.Lt alpha beta →
      KMB (spec g).1 s alpha beta) :
    ∀ (L : List Move) (value : Score) (best : Move) (t : Nat)
      (s : Score) (m : Move) (t' : Nat),
      Score.Lt value Score.posInf →
      max_fold e game child L value best value Score.posInf t = Except.ok ((s, m), t') →
      (s, m) = mm_max_fold e game spec L value best := by
  intro L
  induction L with
  | nil =>
    intro value best t s m t' hv h
    simp only [max_fold, Except.ok.injEq, Prod.mk.injEq] at h
    obtain ⟨⟨hs, hm⟩, ht⟩ := h
    subst hs
    subst hm
    rfl
  | cons mv rest ih =>
    intro value best t s m t' hv h
    cases hc : child (e.G.forecast_move game mv) value Score.posInf t with
    | error ex =>
      rw [max_fold_cons_error e game child mv rest value best value Score.posInf t ex hc] at h
      exact Except.noConfusion h
    | ok res =>
      obtain ⟨⟨sc, mc⟩, t1⟩ := res
      rw [max_fold_cons_ok e game child mv rest value best value Score.posInf t sc mc t1 hc] at h
      obtain ⟨hcA, hcB, hcC⟩ := hchild _ _ _ _ _ _ _ hc hv
      by_cases hcut : Score.ble Score.posInf sc = true
      · -- the child reported plus infinity: immediate beta cutoff at the root
        have hsc : sc = Score.posInf := Score.eq_posInf_of_le (Score.ble_eq_true.mp hcut)
        have hup : Score.blt value sc = true := by rw [hsc]; exact hv
        rw [if_pos hcut] at h
        simp only [Except.ok.injEq, Prod.mk.injEq] at h
        obtain ⟨⟨hs, hm⟩, ht⟩ := h
        have hvc : (spec (e.G.forecast_move game mv)).1 = Score.posInf := by
          apply Score.eq_posInf_of_le
          have h2 := hcC (by rw [hsc]; exact Score.le_posInf Score.posInf)
          rw [hsc] at h2
          exact h2
        have hs' : s = Score.posInf := by rw [← hs, Score.smax_eq_right hup, hsc]
        have hm' : m = mv := by rw [← hm, if_pos hup]
        subst hs'
        subst hm'
        simp only [mm_max_fold, hvc]
        have hvp : Score.blt value Score.posInf = true := hv
        rw [hvp]
        simp only [if_true]
        rw [mm_max_fold_top]
      · -- no cutoff: the child score is below plus infinity
        have hsclt : Score.Lt sc Score.posInf := Score.ble_eq_false.mp (Bool.eq_false_iff.mpr hcut)
        rw [if_neg hcut] at h
        by_cases hup : Score.blt value sc = true
        · -- strict improvement: the child is exact inside the window (value, +inf)
          have hvc : (spec (e.G.forecast_move game mv)).1 = sc := hcB hup hsclt
          rw [Score.smax_eq_right hup, if_pos hup] at h
          have ih' := ih sc mv t1 s m t' hsclt h
          simp only [mm_max_fold, hvc, hup, if_true]
          exact ih'
        · -- no improvement: the child failed low against alpha = value
          have hscv : Score.Le sc value := Bool.eq_false_iff.mpr hup
          have hvcv : Score.Le (spec (e.G.forecast_move game mv)).1 value :=
            Score.le_trans (hcA hscv) hscv
          have hnup : Score.blt value (spec (e.G.forecast_move game mv)).1 = false := hvcv
          rw [Score.smax_eq_left hscv, if_neg hup] at h
          have ih' := ih value best t1 s m t' hv h
          simp only [mm_max_fold, hnup, Bool.false_eq_true, if_false]
          exact ih'

/-- Claim C1: for every game state and every fixed depth d >= 1, if no
timeout is raised (alphabeta with the default full window returns a move),
that move equals the move of an unpruned full-window minimax of the same
depth with the same evaluator and move-enumeration order, ties broken by
the first move encountered with the best score. -/
theorem alphabeta_eq_minimax (e : Env σ π) (game : σ) (depth : Nat)
    (t t' : Nat) (mv : Move) (hd : 1 ≤ depth)
    (h : alphabeta e game depth Score.negInf Score.posInf t = Except.ok (mv, t')) :
    mv = minimax_move e game depth := by
  obtain ⟨d, rfl⟩ : ∃ d, depth = d + 1 := ⟨depth - 1, by omega⟩
  unfold alphabeta at h
  split at h
  · exact Except.noConfusion h
  · cases hmv : max_value e game (d + 1) Score.negInf Score.posInf (t + 1) with
    | error ex =>
      rw [hmv] at h
      exact Except.noConfusion h
    | ok res =>
      obtain ⟨⟨s0, m0⟩, t0⟩ := res
      rw [hmv] at h
      simp only [Except.ok.injEq, Prod.mk.injEq] at h
      obtain ⟨hm0, ht0⟩ := h
      subst hm0
      rw [max_value_succ] at hmv
      simp only [max_body] at hmv
      split at hmv
      · exact Except.noConfusion hmv
      · split at hmv
        case isTrue hleg =>
          simp only [Except.ok.injEq, Prod.mk.injEq] at hmv
          obtain ⟨⟨hs, hmm2⟩, _⟩ := hmv
          unfold minimax_move
          rw [mm_max_succ]
          simp only [mm_max_body]
          rw [if_pos hleg]
          exact hmm2.symm
        case isFalse hleg =>
          have hroot := max_fold_root e game (fun g a b t0 => min_value e g d a b t0)
            (fun g => mm_min e g d)
            (fun g a b tt s1 m1 t1 hh habb => (bounds_all e d).2 g a b tt s1 m1 t1 hh habb)
            (e.G.get_legal_moves game (e.G.active_player game)) Score.negInf noMove
            (t + 1 + 1) s0 m0 t0 rfl hmv
          unfold minimax_move
          rw [mm_max_succ]
          simp only [mm_max_body]
          rw [if_neg hleg]
          rw [← hroot]

/-- Synthetic two-move depth-1 game for the alpha-beta equivalence witness:
the root state 0 has legal moves (0,0) and (0,1), leading to states 1
and 2; the evaluator scores a state by its number. -/
def G1 : GameOps Nat Bool :=
  ⟨fun _ => true,
   fun g _ => if g = 0 then [((0 : Int), (0 : Int)), ((0 : Int), (1 : Int))] else [],
   fun _ mv => if mv = ((0 : Int), (1 : Int)) then 2 else 1,
   fun _ _ => false,
   fun _ _ => false,
   fun _ p => !p,
   fun _ => [],
   fun _ _ => ((7 : Int), (7 : Int))⟩

/-- Search environment over G1 with a never-expiring clock. -/
def env1 : Env Nat Bool :=
  ⟨G1, fun g _ => Score.fin (g : ℚ), true, 1, fun _ => 10⟩

/-- Claim C1 witness: on the concrete game G1 at depth 1, alphabeta
completes without timeout and its move matches the unpruned minimax move. -/
theorem alphabeta_eq_minimax_witness :
    (1 ≤ 1) ∧
    alphabeta env1 0 1 Score.negInf Score.posInf 0 =
      Except.ok (((0 : Int), (1 : Int)), 4) ∧
    ((0 : Int), (1 : Int)) = minimax_move env1 0 1 :=
  ⟨Nat.le_refl 1, rfl,
    alphabeta_eq_minimax env1 0 1 0 4 ((0 : Int), (1 : Int)) (Nat.le_refl 1) rfl⟩

/-- Claim C4: whenever the clock reading at the next call is below the
threshold, _max_value, _min_value and alphabeta all raise the timeout
signal at entry, for every game state, every depth (so on every recursive
invocation, not only at the root) and every window, before consulting the
evaluator or enumerating moves. -/
theorem timeout_checked_first (e : Env σ π) (t : Nat)
    (h : e.clock t < e.threshold) :
    (∀ (game : σ) (depth : Nat) (alpha beta : Score),
      max_value e game depth alpha beta t = Except.error SearchTimeout.mk) ∧
    (∀ (game : σ) (depth : Nat) (alpha beta : Score),
      min_value e game depth alpha beta t = Except.error SearchTimeout.mk) ∧
    (∀ (game : σ) (depth : Nat) (alpha beta : Score),
      alphabeta e game depth alpha beta t = Except.error SearchTimeout.mk) := by
  refine ⟨?_, ?_, ?_⟩
  · intro game depth alpha beta
    cases depth with
    | zero =>
      rw [max_value_zero]
      unfold leaf_eval
      rw [if_pos h]
    | succ d =>
      rw [max_value_succ]
      simp only [max_body]
      rw [if_pos h]
  · intro game depth alpha beta
    cases depth with
    | zero =>
      rw [min_value_zero]
      unfold leaf_eval
      rw [if_pos h]
    | succ d =>
      rw [min_value_succ]
      simp only [min_body]
      rw [if_pos h]
  · intro game depth alpha beta
    unfold alphabeta
    rw [if_pos h]

/-- Environment over G1 whose clock is already below the threshold on the
very first reading. -/
def envT : Env Nat Bool :=
  ⟨G1, fun g _ => Score.fin (g : ℚ), true, 1, fun _ => 0⟩

/-- Claim C4 witness: with the expired clock of envT, all three entry
points raise the timeout signal immediately. -/
theorem timeout_checked_first_witness :
    envT.clock 0 < envT.threshold ∧
    max_value envT 0 5 Score.negInf Score.posInf 0 = Except.error SearchTimeout.mk ∧
    min_value envT 0 5 Score.negInf Score.posInf 0 = Except.error SearchTimeout.mk ∧
    alphabeta envT 0 5 Score.negInf Score.posInf 0 = Except.error SearchTimeout.mk := by
  have hh : envT.clock 0 < envT.threshold := by decide
  exact ⟨hh, (timeout_checked_first envT 0 hh).1 0 5 Score.negInf Score.posInf,
    (timeout_checked_first envT 0 hh).2.1 0 5 Score.negInf Score.posInf,
    (timeout_checked_first envT 0 hh).2.2 0 5 Score.negInf Score.posInf⟩

/-- Claim C6: at every leaf of the fixed-depth search (depth exhausted, or
the side to move has no legal moves), both the MAX and the MIN routine
propagate the evaluator applied to the current state from the fixed
perspective of the searching agent (e.me), irrespective of the window and
of whose turn it is. -/
theorem leaf_eval_fixed_perspective (e : Env σ π) (game : σ) (t : Nat)
    (h : ¬ (e.clock t < e.threshold)) :
    (∀ alpha beta : Score,
      max_value e game 0 alpha beta t =
        Except.ok ((e.score game e.me, e.G.get_player_location game e.me), t + 1)) ∧
    (∀ alpha beta : Score,
      min_value e game 0 alpha beta t =
        Except.ok ((e.score game e.me, e.G.get_player_location game e.me), t + 1)) ∧
    (∀ (d : Nat) (alpha beta : Score),
      e.G.get_legal_moves game (e.G.active_player game) = [] →
      max_value e game (d + 1) alpha beta t =
        Except.ok ((e.score game e.me, noMove), t + 1)) ∧
    (∀ (d : Nat) (alpha beta : Score),
      e.G.get_legal_moves game (e.G.active_player game) = [] →
      min_value e game (d + 1) alpha beta t =
        Except.ok ((e.score game e.me, noMove), t + 1)) := by
  refine ⟨?_, ?_, ?_, ?_⟩
  · intro alpha beta
    rw [max_value_zero]
    unfold leaf_eval
    rw [if_neg h]
  · intro alpha beta
    rw [min_value_zero]
    unfold leaf_eval
    rw [if_neg h]
  · intro d alpha beta hleg
    rw [max_value_succ]
    simp only [max_body]
    rw [if_neg h, if_pos hleg]
  · intro d alpha beta hleg
    rw [min_value_succ]
    simp only [min_body]
    rw [if_neg h, if_pos hleg]

/-- Claim C6 witness: on state 1 of G1 (active player has no legal moves,
agent location (7,7), score fin 1) both routines report the agent's own
evaluation at depth 0 and at depth 3. -/
theorem leaf_eval_fixed_perspective_witness :
    (¬ (env1.clock 0 < env1.threshold)) ∧
    max_value env1 1 0 Score.negInf Score.posInf 0 =
      Except.ok ((Score.fin 1, ((7 : Int), (7 : Int))), 1) ∧
    min_value env1 1 0 Score.negInf Score.posInf 0 =
      Except.ok ((Score.fin 1, ((7 : Int), (7 : Int))), 1) ∧
    max_value env1 1 3 Score.negInf Score.posInf 0 =
      Except.ok ((Score.fin 1, noMove), 1) ∧
    min_value env1 1 3 Score.negInf Score.posInf 0 =
      Except.ok ((Score.fin 1, noMove), 1) := by
  have hh : ¬ (env1.clock 0 < env1.threshold) := by decide
  exact ⟨hh, (leaf_eval_fixed_perspective env1 1 0 hh).1 Score.negInf Score.posInf,
    (leaf_eval_fixed_perspective env1 1 0 hh).2.1 Score.negInf Score.posInf,
    (leaf_eval_fixed_perspective env1 1 0 hh).2.2.1 2 Score.negInf Score.posInf rfl,
    (leaf_eval_fixed_perspective env1 1 0 hh).2.2.2 2 Score.negInf Score.posInf rfl⟩

/-- Claim C5: custom_score returns minus infinity on a loss for the player,
plus infinity on a win, and a finite value otherwise; consequently, for the
same player, every winning terminal state scores strictly above every
non-terminal state, which scores strictly above every losing terminal
state.  The win/loss flags of a state are assumed mutually exclusive, as
they are for the two-player zero-sum games the board contract describes. -/
theorem custom_score_spec (G : GameOps σ π)
    (hexcl : ∀ (game : σ) (player : π),
      ¬ (G.is_loser game player = true ∧ G.is_winner game player = true)) :
    (∀ (game : σ) (player : π), G.is_loser game player = true →
      custom_score G game player = Score.negInf) ∧
    (∀ (game : σ) (player : π), G.is_winner game player = true →
      custom_score G game player = Score.posInf) ∧
    (∀ (game : σ) (player : π),
      G.is_loser game player = false → G.is_winner game player = false →
      ∃ q : ℚ, custom_score G game player = Score.fin q) ∧
    (∀ (gw gn gl : σ) (player : π),
      G.is_winner gw player = true →
      G.is_loser gn player = false → G.is_winner gn player = false →
      G.is_loser gl player = true →
      Score.Lt (custom_score G gn player) (custom_score G gw player) ∧
      Score.Lt (custom_score G gl player) (custom_score G gn player)) := by
  have hloss : ∀ (game : σ) (player : π), G.is_loser game player = true →
      custom_score G game player = Score.negInf := by
    intro game player h
    simp [custom_score, h]
  have hwin : ∀ (game : σ) (player : π), G.is_winner game player = true →
      custom_score G game player = Score.posInf := by
    intro game player h
    have hl : G.is_loser game player = false := by
      cases hb : G.is_loser game player with
      | false => rfl
      | true => exact absurd ⟨hb, h⟩ (hexcl game player)
    simp [custom_score, hl, h]
  have hfin : ∀ (game : σ) (player : π),
      G.is_loser game player = false → G.is_winner game player = false →
      ∃ q : ℚ, custom_score G game player = Score.fin q := by
    intro game player h1 h2
    refine ⟨((G.get_legal_moves game player).length : ℚ) -
      2 * ((G.get_legal_moves game (G.get_opponent game player)).length : ℚ) +
      (((G.get_blank_spaces game).length : ℚ) / 2 +
        2 * ((G.get_legal_moves game player).length : ℚ)) / 13, ?_⟩
    simp [custom_score, h1, h2]
  refine ⟨hloss, hwin, hfin, ?_⟩
  intro gw gn gl player hw hnl hnw hl
  obtain ⟨q, hq⟩ := hfin gn player hnl hnw
  rw [hq, hwin gw player hw, hloss gl player hl]
  exact ⟨rfl, rfl⟩

/-- Tiny three-state board for the evaluator witness: state 1 is a loss,
state 2 a win, state 0 neutral with one legal move. -/
def G5 : GameOps (Fin 3) Bool :=
  ⟨fun _ => true,
   fun g _ => if g = 0 then [((0 : Int), (0 : Int))] else [],
   fun g _ => g,
   fun g _ => decide (g = 1),
   fun g _ => decide (g = 2),
   fun _ p => !p,
   fun _ => [],
   fun _ _ => noMove⟩

/-- Claim C5 witness: on G5 the evaluator yields minus infinity at the
losing state, plus infinity at the winning state, a finite value at the
neutral state, and the strict orderings hold. -/
theorem custom_score_spec_witness :
    (∀ (game : Fin 3) (player : Bool),
      ¬ (G5.is_loser game player = true ∧ G5.is_winner game player = true)) ∧
    custom_score G5 1 true = Score.negInf ∧
    custom_score G5 2 true = Score.posInf ∧
    (∃ q : ℚ, custom_score G5 0 true = Score.fin q) ∧
    (Score.Lt (custom_score G5 0 true) (custom_score G5 2 true) ∧
      Score.Lt (custom_score G5 1 true) (custom_score G5 0 true)) := by
  have hexcl : ∀ (game : Fin 3) (player : Bool),
      ¬ (G5.is_loser game player = true ∧ G5.is_winner game player = true) := by decide
  exact ⟨hexcl, (custom_score_spec G5 hexcl).1 1 true rfl,
    (custom_score_spec G5 hexcl).2.1 2 true rfl,
    (custom_score_spec G5 hexcl).2.2.1 0 true rfl rfl,
    (custom_score_spec G5 hexcl).2.2.2 2 0 1 true rfl rfl rfl rfl⟩

/-- Claim C7: on a state where the active player has no legal moves,
get_move returns the sentinel (-1, -1) immediately, for every agent
object, evaluator, clock, fuel and randomness, so no search is run and
the evaluator is never consulted. -/
theorem get_move_no_moves (G : GameOps σ π) (me : π) (self : CustomPlayer σ π)
    (game : σ) (clock : Nat → ℚ) (fuel r : Nat)
    (h : G.get_legal_moves game (G.active_player game) = []) :
    (get_move G me self game clock fuel r).1 = some noMove := by
  simp [get_move, h]

/-- Agent object over Nat-state boards used by the get_move witnesses. -/
def pW : CustomPlayer Nat Bool :=
  ⟨fun g _ => Score.fin (g : ℚ), none, 1⟩

/-- Claim C7 witness: state 1 of G1 has no legal moves and get_move
returns the sentinel. -/
theorem get_move_no_moves_witness :
    G1.get_legal_moves 1 (G1.active_player 1) = [] ∧
    (get_move G1 true pW 1 (fun _ => 10) 3 0).1 = some noMove :=
  ⟨rfl, get_move_no_moves G1 true pW 1 (fun _ => 10) 3 0 rfl⟩

theorem getD_mod_mem (l : List Move) (r : Nat) (h : l ≠ []) :
    l.getD (r % l.length) noMove ∈ l := by
  have hl : 0 < l.length := List.length_pos.mpr h
  have hr : r % l.length < l.length := Nat.mod_lt r hl
  rw [List.getD_eq_getElem l noMove hr]
  exact List.getElem_mem hr

theorem max_fold_move (e : Env σ π) (game : σ) (child : SearchFun σ) :
    ∀ (L : List Move) (value : Score) (best : Move) (alpha beta : Score) (t : Nat)
      (s : Score) (m : Move) (t' : Nat),
      max_fold e game child L value best alpha beta t = Except.ok ((s, m), t') →
      m = best ∨ m ∈ L := by
  intro L
  induction L with
  | nil =>
    intro value best alpha beta t s m t' h
    simp only [max_fold, Except.ok.injEq, Prod.mk.injEq] at h
    exact Or.inl h.1.2.symm
  | cons mv rest ih =>
    intro value best alpha beta t s m t' h
    cases hc : child (e.G.forecast_move game mv) alpha beta t with
    | error ex =>
      rw [max_fold_cons_error e game child mv rest value best alpha beta t ex hc] at h
      exact Except.noConfusion h
    | ok res =>
      obtain ⟨⟨sc, mc⟩, t1⟩ := res
      rw [max_fold_cons_ok e game child mv rest value best alpha beta t sc mc t1 hc] at h
      by_cases hcut : Score.ble beta sc = true
      · rw [if_pos hcut] at h
        simp only [Except.ok.injEq, Prod.mk.injEq] at h
        obtain ⟨⟨hs, hm⟩, ht⟩ := h
        by_cases hup : Score.blt value sc = true
        · rw [if_pos hup] at hm
          exact Or.inr (hm ▸ List.mem_cons_self mv rest)
        · rw [if_neg hup] at hm
          exact Or.inl hm.symm
      · rw [if_neg hcut] at h
        rcases ih _ _ _ _ _ _ _ _ h with hb | hmem
        · by_cases hup : Score.blt value sc = true
          · rw [if_pos hup] at hb
            exact Or.inr (hb ▸ List.mem_cons_self mv rest)
          · rw [if_neg hup] at hb
            exact Or.inl hb
        · exact Or.inr (List.mem_cons_of_mem mv hmem)

theorem alphabeta_move (e : Env σ π) (game : σ) (d : Nat) (alpha beta : Score)
    (t : Nat) (mv : Move) (t' : Nat)
    (h : alphabeta e game (d + 1) alpha beta t = Except.ok (mv, t')) :
    mv = noMove ∨ mv ∈ e.G.get_legal_moves game (e.G.active_player game) := by
  unfold alphabeta at h
  split at h
  · exact Except.noConfusion h
  · cases hmv : max_value e game (d + 1) alpha beta (t + 1) with
    | error ex =>
      rw [hmv] at h
      exact Except.noConfusion h
    | ok res =>
      obtain ⟨⟨s0, m0⟩, t0⟩ := res
      rw [hmv] at h
      simp only [Except.ok.injEq, Prod.mk.injEq] at h
      obtain ⟨hm0, ht0⟩ := h
      subst hm0
      rw [max_value_succ] at hmv
      simp only [max_body] at hmv
      split at hmv
      · exact Except.noConfusion hmv
      · split at hmv
        case isTrue hleg =>
          simp only [Except.ok.injEq, Prod.mk.injEq] at hmv
          exact Or.inl hmv.1.2.symm
        case isFalse hleg =>
          rcases max_fold_move e game _ _ _ _ _ _ _ _ _ _ hmv with hb | hmem
          · exact Or.inl hb
          · exact Or.inr hmem

theorem get_move_loop_move (e : Env σ π) (game : σ) :
    ∀ (fuel depth : Nat) (chosen : Move) (t : Nat) (mv : Move),
      1 ≤ depth →
      get_move_loop e game fuel depth chosen t = some mv →
      mv = chosen ∨ mv = noMove ∨
        mv ∈ e.G.get_legal_moves game (e.G.active_player game) := by
  intro fuel
  induction fuel with
  | zero =>
    intro depth chosen t mv _ h
    exact Option.noConfusion h
  | succ f ih =>
    intro depth chosen t mv hd h
    rw [get_move_loop] at h
    cases hab : alphabeta e game depth Score.negInf Score.posInf t with
    | error ex =>
      rw [hab] at h
      simp only [Option.some.injEq] at h
      exact Or.inl h.symm
    | ok res =>
      obtain ⟨m1, t1⟩ := res
      rw [hab] at h
      obtain ⟨d0, rfl⟩ : ∃ d0, depth = d0 + 1 := ⟨depth - 1, by omega⟩
      rcases ih (d0 + 1 + 1) m1 t1 mv (by omega) h with h1 | h2
      · rcases alphabeta_move e game d0 Score.negInf Score.posInf t m1 t1 hab with hm | hm
        · exact Or.inr (Or.inl (h1.trans hm))
        · exact Or.inr (Or.inr (h1.symm ▸ hm))
      · exact Or.inr h2

theorem get_move_loop_timeout (e : Env σ π) (game : σ)
    (fuel depth : Nat) (chosen : Move) (t : Nat)
    (h : e.clock t < e.threshold) :
    get_move_loop e game (fuel + 1) depth chosen t = some chosen := by
  rw [get_move_loop]
  unfold alphabeta
  rw [if_pos h]

theorem get_move_none_case (G : GameOps σ π) (me : π) (self : CustomPlayer σ π)
    (game : σ) (clock : Nat → ℚ) (fuel r : Nat)
    (hne : G.get_legal_moves game (G.active_player game) ≠ [])
    (hl : get_move_loop (envOf G me ⟨self.score, some clock, self.TIMER_THRESHOLD⟩ clock)
      game fuel 1 noMove 0 = none) :
    get_move G me self game clock fuel r =
      (none, ⟨self.score, some clock, self.TIMER_THRESHOLD⟩) := by
  simp only [get_move, hl]
  rw [if_neg hne]

theorem get_move_some_case (G : GameOps σ π) (me : π) (self : CustomPlayer σ π)
    (game : σ) (clock : Nat → ℚ) (fuel r : Nat) (chosen : Move)
    (hne : G.get_legal_moves game (G.active_player game) ≠ [])
    (hl : get_move_loop (envOf G me ⟨self.score, some clock, self.TIMER_THRESHOLD⟩ clock)
      game fuel 1 noMove 0 = some chosen) :
    get_move G me self game clock fuel r =
      (some (if chosen = noMove then
        (G.get_legal_moves game (G.active_player game)).getD
          (r % (G.get_legal_moves game (G.active_player game)).length) noMove
      else chosen),
       ⟨self.score, some clock, self.TIMER_THRESHOLD⟩) := by
  simp only [get_move, hl]
  rw [if_neg hne]
  by_cases hch : chosen = noMove
  · rw [if_pos hch, if_pos hch]
  · rw [if_neg hch, if_neg hch]

/-- Claim C3: on a state with at least one legal move, get_move only ever
returns a member of the active player's legal-move list, and with a clock
already below the threshold on the very first reading it still returns
such a move (via the random fallback): the timeout signal is absorbed
inside get_move, whose result type carries no exception. -/
theorem get_move_timeout_safe (G : GameOps σ π) (me : π) (self : CustomPlayer σ π)
    (game : σ) (clock : Nat → ℚ) (fuel r : Nat)
    (hne : G.get_legal_moves game (G.active_player game) ≠ []) :
    (∀ mv, (get_move G me self game clock fuel r).1 = some mv →
      mv ∈ G.get_legal_moves game (G.active_player game)) ∧
    (clock 0 < self.TIMER_THRESHOLD → 1 ≤ fuel →
      ∃ mv, (get_move G me self game clock fuel r).1 = some mv ∧
        mv ∈ G.get_legal_moves game (G.active_player game)) := by
  constructor
  · intro mv h
    cases hl : get_move_loop (envOf G me ⟨self.score, some clock, self.TIMER_THRESHOLD⟩ clock)
        game fuel 1 noMove 0 with
    | none =>
      rw [get_move_none_case G me self game clock fuel r hne hl] at h
      exact Option.noConfusion h
    | some chosen =>
      rw [get_move_some_case G me self game clock fuel r chosen hne hl] at h
      simp only [Option.some.injEq] at h
      by_cases hch : chosen = noMove
      · rw [if_pos hch] at h
        exact h ▸ getD_mod_mem (G.get_legal_moves game (G.active_player game)) r hne
      · rw [if_neg hch] at h
        rcases get_move_loop_move
            (envOf G me ⟨self.score, some clock, self.TIMER_THRESHOLD⟩ clock) game
            fuel 1 noMove 0 chosen (Nat.le_refl 1) hl with h1 | h2 | h3
        · exact absurd h1 hch
        · exact absurd h2 hch
        · exact h ▸ h3
  · intro h0 hf
    obtain ⟨f, rfl⟩ : ∃ f, fuel = f + 1 := ⟨fuel - 1, by omega⟩
    have hl : get_move_loop (envOf G me ⟨self.score, some clock, self.TIMER_THRESHOLD⟩ clock)
        game (f + 1) 1 noMove 0 = some noMove :=
      get_move_loop_timeout _ game f 1 noMove 0 h0
    rw [get_move_some_case G me self game clock (f + 1) r noMove hne hl]
    refine ⟨(G.get_legal_moves game (G.active_player game)).getD
      (r % (G.get_legal_moves game (G.active_player game)).length) noMove, ?_,
      getD_mod_mem (G.get_legal_moves game (G.active_player game)) r hne⟩
    simp

/-- Claim C3 witness: on the two-move state 0 of G1, with a clock already
expired at the first reading, get_move still returns a legal move. -/
theorem get_move_timeout_safe_witness :
    G1.get_legal_moves 0 (G1.active_player 0) ≠ [] ∧
    ((fun _ => (0 : ℚ)) 0 < pW.TIMER_THRESHOLD) ∧
    (∃ mv, (get_move G1 true pW 0 (fun _ => (0 : ℚ)) 1 0).1 = some mv ∧
      mv ∈ G1.get_legal_moves 0 (G1.active_player 0)) := by
  have hne : G1.get_legal_moves 0 (G1.active_player 0) ≠ [] := by decide
  have h0 : ((fun _ => (0 : ℚ)) 0 < pW.TIMER_THRESHOLD) := by decide
  exact ⟨hne, h0,
    (get_move_timeout_safe G1 true pW 0 (fun _ => (0 : ℚ)) 1 0 hne).2 h0 (Nat.le_refl 1)⟩

theorem max_fold_total (e : Env σ π) (game : σ) (child : SearchFun σ)
    (hc : ∀ (g : σ) (a b : Score) (t : Nat), ∃ res t', child g a b t = Except.ok (res, t')) :
    ∀ (L : List Move) (value : Score) (best : Move) (alpha beta : Score) (t : Nat),
      ∃ res t', max_fold e game child L value best alpha beta t = Except.ok (res, t') := by
  intro L
  induction L with
  | nil =>
    intro value best alpha beta t
    exact ⟨(value, best), t, rfl⟩
  | cons mv rest ih =>
    intro value best alpha beta t
    obtain ⟨res1, t1, hcall⟩ := hc (e.G.forecast_move game mv) alpha beta t
    obtain ⟨sc, mc⟩ := res1
    rw [max_fold_cons_ok e game child mv rest value best alpha beta t sc mc t1 hcall]
    by_cases hcut : Score.ble beta sc = true
    · rw [if_pos hcut]
      exact ⟨_, _, rfl⟩
    · rw [if_neg hcut]
      exact ih _ _ _ _ _

theorem min_fold_total (e : Env σ π) (game : σ) (child : SearchFun σ)
    (hc : ∀ (g : σ) (a b : Score) (t : Nat), ∃ res t', child g a b t = Except.ok (res, t')) :
    ∀ (L : List Move) (value : Score) (best : Move) (alpha beta : Score) (t : Nat),
      ∃ res t', min_fold e game child L value best alpha beta t = Except.ok (res, t') := by
  intro L
  induction L with
  | nil =>
    intro value best alpha beta t
    exact ⟨(value, best), t, rfl⟩
  | cons mv rest ih =>
    intro value best alpha beta t
    obtain ⟨res1, t1, hcall⟩ := hc (e.G.forecast_move game mv) alpha beta t
    obtain ⟨sc, mc⟩ := res1
    rw [min_fold_cons_ok e game child mv rest value best alpha beta t sc mc t1 hcall]
    by_cases hcut : Score.ble sc alpha = true
    · rw [if_pos hcut]
      exact ⟨_, _, rfl⟩
    · rw [if_neg hcut]
      exact ih _ _ _ _ _

theorem search_total (e : Env σ π) (h : ∀ n, ¬ (e.clock n < e.threshold)) :
    ∀ (d : Nat) (game : σ) (alpha beta : Score) (t : Nat),
      (∃ res t', max_value e game d alpha beta t = Except.ok (res, t')) ∧
      (∃ res t', min_value e game d alpha beta t = Except.ok (res, t')) := by
  intro d
  induction d with
  | zero =>
    intro game alpha beta t
    constructor
    · rw [max_value_zero]
      unfold leaf_eval
      rw [if_neg (h t)]
      exact ⟨_, _, rfl⟩
    · rw [min_value_zero]
      unfold leaf_eval
      rw [if_neg (h t)]
      exact ⟨_, _, rfl⟩
  | succ d ih =>
    intro game alpha beta t
    constructor
    · rw [max_value_succ]
      simp only [max_body]
      rw [if_neg (h t)]
      by_cases hleg : e.G.get_legal_moves game (e.G.active_player game) = []
      · rw [if_pos hleg]
        exact ⟨_, _, rfl⟩
      · rw [if_neg hleg]
        exact max_fold_total e game (fun g a b t0 => min_value e g d a b t0)
          (fun g a b t0 => (ih g a b t0).2) _ _ _ _ _ _
    · rw [min_value_succ]
      simp only [min_body]
      rw [if_neg (h t)]
      by_cases hleg : e.G.get_legal_moves game (e.G.active_player game) = []
      · rw [if_pos hleg]
        exact ⟨_, _, rfl⟩
      · rw [if_neg hleg]
        exact min_fold_total e game (fun g a b t0 => max_value e g d a b t0)
          (fun g a b t0 => (ih g a b t0).1) _ _ _ _ _ _

theorem alphabeta_total (e : Env σ π) (game : σ)
    (h : ∀ n, ¬ (e.clock n < e.threshold)) (depth t : Nat) (alpha beta : Score) :
    ∃ mv t', alphabeta e game depth alpha beta t = Except.ok (mv, t') := by
  unfold alphabeta
  rw [if_neg (h t)]
  obtain ⟨⟨s0, m0⟩, t', hmv⟩ := (search_total e h depth game alpha beta (t + 1)).1
  rw [hmv]
  exact ⟨m0, t', rfl⟩

theorem get_move_loop_none (e : Env σ π) (game : σ)
    (h : ∀ n, ¬ (e.clock n < e.threshold)) :
    ∀ (fuel depth : Nat) (chosen : Move) (t : Nat),
      get_move_loop e game fuel depth chosen t = none := by
  intro fuel
  induction fuel with
  | zero =>
    intro depth chosen t
    rfl
  | succ f ih =>
    intro depth chosen t
    obtain ⟨mv, t', hab⟩ := alphabeta_total e game h depth t Score.negInf Score.posInf
    simp only [get_move_loop, hab]
    exact ih (depth + 1) mv t'

/-- Claim C8: with a clock that never drops below the threshold, every
alphabeta call of the iterative-deepening loop completes and the loop then
proceeds to depth + 1 (so the n-th completed iteration of get_move, which
starts at depth 1, searches depth n); the loop itself never produces a
result for any amount of fuel, and get_move never returns: the loop only
ever stops through the timeout signal. -/
theorem iterative_deepening_no_self_stop (G : GameOps σ π) (me : π)
    (self : CustomPlayer σ π) (game : σ) (clock : Nat → ℚ)
    (h : ∀ n, ¬ (clock n < self.TIMER_THRESHOLD)) :
    (∀ (fuel depth : Nat) (chosen : Move) (t : Nat),
      get_move_loop (envOf G me self clock) game fuel depth chosen t = none) ∧
    (∀ (fuel depth : Nat) (chosen : Move) (t : Nat), ∃ mv t',
      alphabeta (envOf G me self clock) game depth Score.negInf Score.posInf t =
        Except.ok (mv, t') ∧
      get_move_loop (envOf G me self clock) game (fuel + 1) depth chosen t =
        get_move_loop (envOf G me self clock) game fuel (depth + 1) mv t') ∧
    (G.get_legal_moves game (G.active_player game) ≠ [] →
      ∀ fuel r, (get_move G me self game clock fuel r).1 = none) := by
  have hE : ∀ n, ¬ ((envOf G me self clock).clock n < (envOf G me self clock).threshold) := h
  refine ⟨get_move_loop_none (envOf G me self clock) game hE, ?_, ?_⟩
  · intro fuel depth chosen t
    obtain ⟨mv, t', hab⟩ :=
      alphabeta_total (envOf G me self clock) game hE depth t Score.negInf Score.posInf
    exact ⟨mv, t', hab, by simp only [get_move_loop, hab]⟩
  · intro hne fuel r
    have hE1 : ∀ n, ¬ ((envOf G me ⟨self.score, some clock, self.TIMER_THRESHOLD⟩
        clock).clock n < (envOf G me ⟨self.score, some clock, self.TIMER_THRESHOLD⟩
        clock).threshold) := h
    rw [get_move_none_case G me self game clock fuel r hne
      (get_move_loop_none _ game hE1 fuel 1 noMove 0)]

/-- A clock that never expires. -/
def clockInf : Nat → ℚ := fun _ => 10

/-- Claim C8 witness: over G1 with a never-expiring clock, the loop steps
through successive depths and never stops on its own. -/
theorem iterative_deepening_no_self_stop_witness :
    (∀ (fuel depth : Nat) (chosen : Move) (t : Nat),
      get_move_loop (envOf G1 true pW clockInf) 0 fuel depth chosen t = none) ∧
    (∀ (fuel depth : Nat) (chosen : Move) (t : Nat), ∃ mv t',
      alphabeta (envOf G1 true pW clockInf) 0 depth Score.negInf Score.posInf t =
        Except.ok (mv, t') ∧
      get_move_loop (envOf G1 true pW clockInf) 0 (fuel + 1) depth chosen t =
        get_move_loop (envOf G1 true pW clockInf) 0 fuel (depth + 1) mv t') ∧
    (G1.get_legal_moves 0 (G1.active_player 0) ≠ [] →
      ∀ fuel r, (get_move G1 true pW 0 clockInf fuel r).1 = none) :=
  iterative_deepening_no_self_stop G1 true pW 0 clockInf
    (fun n => by show ¬ ((10 : ℚ) < 1); decide)

/-- One-move game where the only root move loses immediately: state 0 has
legal move (0,0) leading to state 1, which is a loss for the agent. -/
def G2 : GameOps Nat Bool :=
  ⟨fun _ => true,
   fun g _ => if g = 0 then [((0 : Int), (0 : Int))] else [],
   fun _ _ => 1,
   fun g _ => decide (g = 1),
   fun _ _ => false,
   fun _ p => !p,
   fun _ => [],
   fun _ _ => ((5 : Int), (5 : Int))⟩

/-- Agent whose evaluator scores the losing state 1 at minus infinity. -/
def p2 : CustomPlayer Nat Bool :=
  ⟨fun g _ => if g = 1 then Score.negInf else Score.fin 0, none, 1⟩

/-- Clock that allows exactly the three readings of a depth-1 search and
then expires. -/
def clock2 : Nat → ℚ := fun t => if t < 3 then 10 else 0

/-- Environment get_move builds on G2, p2 and clock2. -/
def envC2 : Env Nat Bool := envOf G2 true p2 clock2

/-- Claim C2 counterexample: on G2 the depth-1 search completes fully
without timeout and records the sentinel (-1, -1) (its only root move
scores minus infinity, so no strict improvement ever records a move);
depth 2 then times out, yet get_move returns the random fallback (0, 0)
instead of the recorded result of the last fully completed depth — so the
fallback is not used only when no depth ever completed. -/
theorem get_move_fallback_after_completed_depth :
    alphabeta envC2 0 1 Score.negInf Score.posInf 0 = Except.ok (noMove, 3) ∧
    get_move_loop envC2 0 2 1 noMove 0 = some noMove ∧
    (get_move G2 true p2 0 clock2 2 0).1 = some ((0 : Int), (0 : Int)) ∧
    ((0 : Int), (0 : Int)) ≠ noMove :=
  ⟨rfl, rfl, rfl, by decide⟩

/-- Claim C2 amended: the recorded move is only overwritten by the result
of an alphabeta call that completed fully; a timeout ends the loop with
the currently recorded move, discarding the aborted depth; and get_move
returns the recorded move whenever it is not the sentinel, falling back to
a uniformly random legal move exactly when the recorded move is still the
sentinel (-1, -1) — which happens when no depth ever completed, and also
when every completed depth recorded the sentinel. -/
theorem get_move_overwrite_invariant (G : GameOps σ π) (me : π)
    (self : CustomPlayer σ π) (game : σ) (clock : Nat → ℚ) (fuel r : Nat) :
    (∀ (depth : Nat) (chosen : Move) (t f : Nat) (ex : SearchTimeout),
      alphabeta (envOf G me ⟨self.score, some clock, self.TIMER_THRESHOLD⟩ clock) game
        depth Score.negInf Score.posInf t = Except.error ex →
      get_move_loop (envOf G me ⟨self.score, some clock, self.TIMER_THRESHOLD⟩ clock) game
        (f + 1) depth chosen t = some chosen) ∧
    (∀ (depth : Nat) (chosen : Move) (t f : Nat) (mv : Move) (t' : Nat),
      alphabeta (envOf G me ⟨self.score, some clock, self.TIMER_THRESHOLD⟩ clock) game
        depth Score.negInf Score.posInf t = Except.ok (mv, t') →
      get_move_loop (envOf G me ⟨self.score, some clock, self.TIMER_THRESHOLD⟩ clock) game
        (f + 1) depth chosen t =
        get_move_loop (envOf G me ⟨self.score, some clock, self.TIMER_THRESHOLD⟩ clock) game
          f (depth + 1) mv t') ∧
    (∀ chosen : Move,
      G.get_legal_moves game (G.active_player game) ≠ [] →
      get_move_loop (envOf G me ⟨self.score, some clock, self.TIMER_THRESHOLD⟩ clock) game
        fuel 1 noMove 0 = some chosen →
      (chosen ≠ noMove → (get_move G me self game clock fuel r).1 = some chosen) ∧
      (chosen = noMove →
        (get_move G me self game clock fuel r).1 =
          some ((G.get_legal_moves game (G.active_player game)).getD
            (r % (G.get_legal_moves game (G.active_player game)).length) noMove) ∧
        (G.get_legal_moves game (G.active_player game)).getD
          (r % (G.get_legal_moves game (G.active_player game)).length) noMove ∈
          G.get_legal_moves game (G.active_player game))) := by
  refine ⟨?_, ?_, ?_⟩
  · intro depth chosen t f ex hab
    simp only [get_move_loop, hab]
  · intro depth chosen t f mv t' hab
    simp only [get_move_loop, hab]
  · intro chosen hne hl
    constructor
    · intro hch
      rw [get_move_some_case G me self game clock fuel r chosen hne hl]
      simp [hch]
    · intro hch
      rw [get_move_some_case G me self game clock fuel r chosen hne hl]
      exact ⟨by simp [hch],
        getD_mod_mem (G.get_legal_moves game (G.active_player game)) r hne⟩

/-- Claim C2 amended witness: the G2 scenario run through the amended
description: the loop records the sentinel, and get_move falls back to the
(only) legal move. -/
theorem get_move_overwrite_invariant_witness :
    G2.get_legal_moves 0 (G2.active_player 0) ≠ [] ∧
    (get_move G2 true p2 0 clock2 2 0).1 = some ((0 : Int), (0 : Int)) ∧
    ((0 : Int), (0 : Int)) ∈ G2.get_legal_moves 0 (G2.active_player 0) := by
  have hne : G2.get_legal_moves 0 (G2.active_player 0) ≠ [] := by decide
  have h3 := ((get_move_overwrite_invariant G2 true p2 0 clock2 2 0).2.2
    noMove hne rfl).2 rfl
  exact ⟨hne, h3.1, h3.2⟩

/-- Claim C9 counterexample: a call to get_move mutates the agent object:
it stores the clock callable in self.time_left, so after one call the
agent differs from its construction-time state — the agent does retain
state between calls beyond its construction-time configuration. -/
theorem get_move_stores_clock :
    (get_move G1 true (CustomPlayer.init G1 () 1) 1 clockInf 1 0).2 ≠
      CustomPlayer.init G1 () 1 := by
  intro h
  exact Option.noConfusion (congrArg CustomPlayer.time_left h)

/-- Claim C9 amended: the only mutation get_move performs on the agent is
storing the supplied clock in self.time_left (overwritten at the start of
every call); the evaluator and the timer threshold are unchanged, the game
state is untouched (get_move returns no modified state), and the result is
independent of whatever time_left held before the call — so behavior
across calls depends only on the construction-time configuration. -/
theorem get_move_frame (G : GameOps σ π) (me : π) (self : CustomPlayer σ π)
    (game : σ) (clock : Nat → ℚ) (fuel r : Nat) :
    (get_move G me self game clock fuel r).2 =
      ⟨self.score, some clock, self.TIMER_THRESHOLD⟩ ∧
    ((get_move G me self game clock fuel r).2).score = self.score ∧
    ((get_move G me self game clock fuel r).2).TIMER_THRESHOLD = self.TIMER_THRESHOLD ∧
    (∀ tl0 tl1 : Option (Nat → ℚ),
      (get_move G me ⟨self.score, tl0, self.TIMER_THRESHOLD⟩ game clock fuel r).1 =
        (get_move G me ⟨self.score, tl1, self.TIMER_THRESHOLD⟩ game clock fuel r).1) := by
  have h1 : (get_move G me self game clock fuel r).2 =
      ⟨self.score, some clock, self.TIMER_THRESHOLD⟩ := by
    by_cases hleg : G.get_legal_moves game (G.active_player game) = []
    · simp [get_move, hleg]
    · cases hl : get_move_loop
          (envOf G me ⟨self.score, some clock, self.TIMER_THRESHOLD⟩ clock)
          game fuel 1 noMove 0 with
      | none =>
        rw [get_move_none_case G me self game clock fuel r hleg hl]
      | some chosen =>
        rw [get_move_some_case G me self game clock fuel r chosen hleg hl]
  exact ⟨h1, by rw [h1], by rw [h1], fun tl0 tl1 => rfl⟩

/-- Claim C10: CustomPlayer.__init__ ignores the data argument entirely:
for any two data values (even of different types) the constructed agents
are equal, the evaluator is always custom_score over the given board
operations, time_left starts unset, the threshold is the given timeout,
and get_move behaves identically. -/
theorem init_ignores_data {δ1 δ2 : Type} (G : GameOps σ π) (d1 : δ1) (d2 : δ2)
    (timeout : ℚ) :
    CustomPlayer.init G d1 timeout = CustomPlayer.init G d2 timeout ∧
    (CustomPlayer.init G d1 timeout).score = custom_score G ∧
    (CustomPlayer.init G d1 timeout).time_left = none ∧
    (CustomPlayer.init G d1 timeout).TIMER_THRESHOLD = timeout ∧
    (∀ (me : π) (game : σ) (clock : Nat → ℚ) (fuel r : Nat),
      get_move G me (CustomPlayer.init G d1 timeout) game clock fuel r =
        get_move G me (CustomPlayer.init G d2 timeout) game clock fuel r) :=
  ⟨rfl, rfl, rfl, rfl, fun _ _ _ _ _ => rfl⟩
